import Mathlib

/-!
Shallow embedding of the pagination/merge/conflict-resolution pipeline and
the LLM request gateway of the ExtractThinker repository
(src/extract_thinker/pagination_handler.py and src/extract_thinker/llm.py).

Python runtime values that flow through `model_dump()` dictionaries are
modelled by the inductive type `PVal`; Python dicts are association lists
with unique keys in insertion order (Python 3.7+ dict semantics); a pydantic
model class is modelled by the list-ness of each declared field, which is
the only property of `response_model.model_fields` the merge code consults.
-/

/-- A Python value as it appears in a `model_dump()` dictionary:
`None`, an int, a string, a bool, a list, or a (nested) dict. -/
inductive PVal : Type where
  | none : PVal
  | int : Int → PVal
  | str : String → PVal
  | bool : Bool → PVal
  | list : List PVal → PVal
  | dict : List (String × PVal) → PVal

mutual
/-- Decidable structural equality of Python values (Python `==` on dump
values), by mutual structural recursion so that it computes in the
kernel. -/
def pvalDecEq : (a b : PVal) → Decidable (a = b)
  | .none, .none => isTrue rfl
  | .none, .int _ => isFalse nofun
  | .none, .str _ => isFalse nofun
  | .none, .bool _ => isFalse nofun
  | .none, .list _ => isFalse nofun
  | .none, .dict _ => isFalse nofun
  | .int _, .none => isFalse nofun
  | .int n, .int m =>
      match decEq n m with
      | isTrue h => isTrue (by rw [h])
      | isFalse h => isFalse (by intro hh; injection hh; contradiction)
  | .int _, .str _ => isFalse nofun
  | .int _, .bool _ => isFalse nofun
  | .int _, .list _ => isFalse nofun
  | .int _, .dict _ => isFalse nofun
  | .str _, .none => isFalse nofun
  | .str _, .int _ => isFalse nofun
  | .str s, .str t =>
      match decEq s t with
      | isTrue h => isTrue (by rw [h])
      | isFalse h => isFalse (by intro hh; injection hh; contradiction)
  | .str _, .bool _ => isFalse nofun
  | .str _, .list _ => isFalse nofun
  | .str _, .dict _ => isFalse nofun
  | .bool _, .none => isFalse nofun
  | .bool _, .int _ => isFalse nofun
  | .bool _, .str _ => isFalse nofun
  | .bool a, .bool b =>
      match decEq a b with
      | isTrue h => isTrue (by rw [h])
      | isFalse h => isFalse (by intro hh; injection hh; contradiction)
  | .bool _, .list _ => isFalse nofun
  | .bool _, .dict _ => isFalse nofun
  | .list _, .none => isFalse nofun
  | .list _, .int _ => isFalse nofun
  | .list _, .str _ => isFalse nofun
  | .list _, .bool _ => isFalse nofun
  | .list xs, .list ys =>
      match pvalListDecEq xs ys with
      | isTrue h => isTrue (by rw [h])
      | isFalse h => isFalse (by intro hh; injection hh; contradiction)
  | .list _, .dict _ => isFalse nofun
  | .dict _, .none => isFalse nofun
  | .dict _, .int _ => isFalse nofun
  | .dict _, .str _ => isFalse nofun
  | .dict _, .bool _ => isFalse nofun
  | .dict _, .list _ => isFalse nofun
  | .dict xs, .dict ys =>
      match pvalDictDecEq xs ys with
      | isTrue h => isTrue (by rw [h])
      | isFalse h => isFalse (by intro hh; injection hh; contradiction)

/-- Decidable elementwise equality of value lists. -/
def pvalListDecEq : (xs ys : List PVal) → Decidable (xs = ys)
  | [], [] => isTrue rfl
  | [], _ :: _ => isFalse nofun
  | _ :: _, [] => isFalse nofun
  | x :: xs, y :: ys =>
      match pvalDecEq x y with
      | isFalse h => isFalse (by intro hh; injection hh; contradiction)
      | isTrue h1 =>
          match pvalListDecEq xs ys with
          | isTrue h2 => isTrue (by rw [h1, h2])
          | isFalse h => isFalse (by intro hh; injection hh; contradiction)

/-- Decidable entrywise equality of dict association lists. -/
def pvalDictDecEq : (xs ys : List (String × PVal)) → Decidable (xs = ys)
  | [], [] => isTrue rfl
  | [], _ :: _ => isFalse nofun
  | _ :: _, [] => isFalse nofun
  | (k, v) :: xs, (l, w) :: ys =>
      match decEq k l with
      | isFalse h => isFalse (by intro hh; injection hh with h1 h2; injection h1; contradiction)
      | isTrue hk =>
          match pvalDecEq v w with
          | isFalse h => isFalse (by intro hh; injection hh with h1 h2; injection h1; contradiction)
          | isTrue hv =>
              match pvalDictDecEq xs ys with
              | isTrue h2 => isTrue (by rw [hk, hv, h2])
              | isFalse h => isFalse (by intro hh; injection hh; contradiction)
end

instance : DecidableEq PVal := pvalDecEq

instance {ε α : Type} [DecidableEq ε] [DecidableEq α] :
    DecidableEq (Except ε α) := fun a b =>
  match a, b with
  | .error e, .error f =>
      match decEq e f with
      | isTrue h => isTrue (by rw [h])
      | isFalse h => isFalse (by intro hh; injection hh; contradiction)
  | .ok x, .ok y =>
      match decEq x y with
      | isTrue h => isTrue (by rw [h])
      | isFalse h => isFalse (by intro hh; injection hh; contradiction)
  | .error _, .ok _ => isFalse nofun
  | .ok _, .error _ => isFalse nofun

/-- Whether a Python value is hashable: `set(...)` in
`_merge_results` raises `TypeError` on lists and dicts. -/
def hashableB : PVal → Bool
  | .list _ => false
  | .dict _ => false
  | _ => true

mutual
/-- Python `repr` of a value (as used inside `str` of a container). -/
def pyRepr : PVal → String
  | .none => "None"
  | .int n => toString n
  | .str s => "\x27" ++ s ++ "\x27"
  | .bool b => if b then "True" else "False"
  | .list xs => "[" ++ pyReprList xs ++ "]"
  | .dict kvs => "\x7b" ++ pyReprDict kvs ++ "\x7d"

/-- Comma-separated `repr`s of the elements of a list. -/
def pyReprList : List PVal → String
  | [] => ""
  | [x] => pyRepr x
  | x :: xs => pyRepr x ++ ", " ++ pyReprList xs

/-- Comma-separated `repr`s of the entries of a dict. -/
def pyReprDict : List (String × PVal) → String
  | [] => ""
  | [kv] => "\x27" ++ kv.1 ++ "\x27: " ++ pyRepr kv.2
  | kv :: kvs => "\x27" ++ kv.1 ++ "\x27: " ++ pyRepr kv.2 ++ ", " ++ pyReprDict kvs
end

/-- Python `str` of a value (top-level strings print without quotes). -/
def pyStr : PVal → String
  | .str s => s
  | v => pyRepr v

/-- A `model_dump()` result: a Python dict from field name to value,
as an association list in insertion order. -/
def Record : Type := List (String × PVal)

instance : DecidableEq Record := by
  unfold Record
  infer_instance

/-- Look a key up in a record (Python `d[k]` / `k in d`). -/
def lookupField (r : Record) (k : String) : Option PVal :=
  match r with
  | [] => Option.none
  | kv :: rest => if kv.1 = k then Option.some kv.2 else lookupField rest k

/-- The schema (`response_model`): for each declared field name, whether
`get_origin(annotation) is list`.  This is the only information
`_merge_results`, `_has_conflicts` and `_identify_conflicts` read from
`response_model.model_fields`. -/
def Schema : Type := List (String × Bool)

/-- `field_name in response_model.model_fields and
get_origin(field_type) is list`: a field missing from the schema falls into
the scalar branch of `_merge_results` (its `field_type` is `None`). -/
def isListField (schema : Schema) (k : String) : Bool :=
  match schema with
  | [] => false
  | kv :: rest => if kv.1 = k then kv.2 else isListField rest k

/-- The per-field value list built by the first loop of `_merge_results`:
for the field `k`, the values contributed by each page's dump that contains
`k`, in page-result order. -/
def collectField (results : List Record) (k : String) : List PVal :=
  results.filterMap (fun r => lookupField r k)

/-- Insert a key at the end if it is not present yet (Python dict
`field_values[field_name] = []` on first sight preserves insertion order). -/
def insertKey (acc : List String) (k : String) : List String :=
  if k ∈ acc then acc else acc ++ [k]

/-- The key order of the `field_values` dict of `_merge_results`:
first-appearance order across all page dumps. -/
def collectKeys (results : List Record) : List String :=
  results.foldl (fun acc r => r.foldl (fun acc2 kv => insertKey acc2 kv.1) acc) []

/-- Model of Python `list(set(xs))` in `_merge_results`: the distinct
elements of `xs`.  CPython iterates a set in hash-table-slot order, which
is input- and implementation-dependent (for small ints it is `hash & mask`
slot order, e.g. `list(set([3, 10])) = [10, 3]`; for strings it is
randomized per process); it is neither first-occurrence order nor sorted.
A deterministic embedding must fix some order, and this one keeps first
occurrences; consequently only ORDER-INSENSITIVE properties of the
resulting list — membership, absence of duplicates, length, emptiness,
its permutation class — are faithful to the source, and the theorems
below assert the candidate list of a conflict marker only up to those
properties, except at concrete inputs where the CPython hash-slot
computation produces this very list (verified per input: `{10, 3}`
iterates `[10, 3]`, `{10, 12}` iterates `[10, 12]`). -/
def pyDistinctAux (seen : List PVal) : List PVal → List PVal
  | [] => []
  | v :: vs =>
      if v ∈ seen then pyDistinctAux seen vs
      else v :: pyDistinctAux (seen ++ [v]) vs

/-- `pyDistinct xs = pyDistinctAux [] xs`. -/
def pyDistinct (xs : List PVal) : List PVal := pyDistinctAux [] xs

/-- The contribution of one page value to a merged list field, mirroring the
loop body of `_merge_results`: a list is spliced in (`extend`), `None`
contributes nothing, any other value is appended as a single element. -/
def contribOf : PVal → List PVal
  | .list xs => xs
  | .none => []
  | v => [v]

/-- The `merged_list` loop of `_merge_results` as written (a left fold over
the page values). -/
def listConcat (values : List PVal) : List PVal :=
  values.foldl (fun acc v =>
    match v with
    | .list xs => acc ++ xs
    | .none => acc
    | w => acc ++ [w]) []

/-- Errors the merge can raise. -/
inductive MergeError : Type where
  | typeErrorUnhashable : MergeError
deriving DecidableEq

/-- The conflict marker dict stored by `_merge_results` for a scalar field
with two or more distinct non-null values. -/
def conflictOf (candidates : List PVal) : PVal :=
  .dict [("_conflict", .bool true), ("candidates", .list candidates)]

/-- The non-null values of a scalar field (`non_null_values`). -/
def nonNullOf (values : List PVal) : List PVal :=
  values.filter (fun v => v ≠ PVal.none)

/-- The per-field merge of `_merge_results`.  `isList` is
`field_type and get_origin(field_type) is list`.  The scalar branch forms
`set(non_null_values)`, which raises `TypeError` when any non-null value is
unhashable. -/
def mergeField (isList : Bool) (values : List PVal) : Except MergeError PVal :=
  if isList then
    .ok (.list (listConcat values))
  else
    let nonNull := nonNullOf values
    if nonNull.isEmpty then
      .ok .none
    else if (nonNull.all hashableB) = false then
      .error .typeErrorUnhashable
    else
      let distinct := pyDistinct nonNull
      match distinct with
      | [v] => .ok v
      | _ => .ok (conflictOf distinct)

/-- The field-by-field merge loop of `_merge_results`, over a given key
order; the first raised error aborts the whole merge. -/
def mergeFields (schema : Schema) (results : List Record) :
    List String → Except MergeError Record
  | [] => .ok []
  | k :: ks => do
    let v ← mergeField (isListField schema k) (collectField results k)
    let rest ← mergeFields schema results ks
    .ok ((k, v) :: rest)

/-- The pre-resolution part of `_merge_results` (the spec's MergedRecord):
collect values per field and merge each field, in `field_values` key
order. -/
def mergedRecord (schema : Schema) (results : List Record) :
    Except MergeError Record :=
  mergeFields schema results (collectKeys results)

/-- Python truthiness of a dump value (`if field_value.get("_conflict")`). -/
def pyTruthy : PVal → Bool
  | .none => false
  | .int n => n ≠ 0
  | .str s => s ≠ ""
  | .bool b => b
  | .list xs => xs ≠ []
  | .dict kvs => kvs ≠ []

/-- `field_name in response_model.model_fields`. -/
def inSchema (schema : Schema) (k : String) : Bool :=
  schema.any (fun kv => kv.1 == k)

/-- `isinstance(field_value, dict) and field_value.get("_conflict")`. -/
def isConflictMarker : PVal → Bool
  | .dict kvs =>
      match lookupField kvs "_conflict" with
      | Option.some w => pyTruthy w
      | Option.none => false
  | _ => false

/-- `len(set(str(x) for x in field_value)) < len(field_value)`: the list
has two or more elements with the same string representation. -/
def strDup (xs : List PVal) : Bool :=
  (xs.map pyStr).dedup.length < xs.length

/-- One field's test inside `_has_conflicts`: fields absent from
`response_model.model_fields` are skipped; a conflict-marker dict counts;
a list-typed field value that is a list of length > 1 with
string-representation duplicates counts. -/
def fieldHasConflict (schema : Schema) (k : String) (v : PVal) : Bool :=
  if inSchema schema k = false then false
  else if isConflictMarker v then true
  else
    match v with
    | .list xs => isListField schema k && xs.length > 1 && strDup xs
    | _ => false

/-- `_has_conflicts(result_dict, response_model)`. -/
def has_conflicts (result : Record) (schema : Schema) : Bool :=
  result.any (fun kv => fieldHasConflict schema kv.1 kv.2)

/-- `field_value["candidates"]` of a conflict marker (`PVal.none` standing
for the `KeyError` case, which the markers built by the merge never hit). -/
def candidatesOfMarker : PVal → PVal
  | .dict kvs =>
      match lookupField kvs "candidates" with
      | Option.some w => w
      | Option.none => .none
  | _ => .none

/-- `_identify_conflicts(result_dict, response_model)`: the `conflicts`
dict, mapping each conflicting field to its candidate list (for scalar
conflict markers) or to the full list value (for duplicate list fields). -/
def identify_conflicts (result : Record) (schema : Schema) :
    List (String × PVal) :=
  result.filterMap fun kv =>
    if inSchema schema kv.1 = false then Option.none
    else if isConflictMarker kv.2 then Option.some (kv.1, candidatesOfMarker kv.2)
    else
      match kv.2 with
      | .list xs =>
          if isListField schema kv.1 && xs.length > 1 && strDup xs then
            Option.some (kv.1, .list xs)
          else Option.none
      | _ => Option.none

/-- One entry of the resolver reply's `resolved_fields` mapping:
`{"value": ..., "confidence": ...}`. -/
structure Resolution : Type where
  value : PVal
  confidence : PVal
deriving DecidableEq

/-- Does the record contain the key (`if field_name in result_dict`)? -/
def containsKey (r : Record) (k : String) : Bool :=
  match r with
  | [] => false
  | kv :: rest => if kv.1 = k then true else containsKey rest k

/-- Overwrite an existing key's value in place (Python
`result_dict[field_name] = ...` keeps the key's position). -/
def setField (r : Record) (k : String) (v : PVal) : Record :=
  r.map (fun kv => if kv.1 = k then (kv.1, v) else kv)

/-- `_merge_resolved_conflicts(original, resolved, response_model)`: for
every field of the resolver reply that exists in the merged mapping,
overwrite its value with the resolution's `value`; the `confidence` entry
is never read. -/
def merge_resolved_conflicts (original : Record)
    (resolved : List (String × Resolution)) : Record :=
  resolved.foldl
    (fun acc kr => if containsKey acc kr.1 then setField acc kr.1 kr.2.value else acc)
    original

/-- `_resolve_conflicts(result_dict, response_model)`.  The LLM round trip
of `_request_conflict_resolution` is external; `reply` is the
`resolved_fields` sub-mapping extracted from its response
(`response.get("resolved_fields", {})`). -/
def resolve_conflicts (result : Record) (schema : Schema)
    (reply : List (String × Resolution)) : Record :=
  if identify_conflicts result schema = [] then result
  else merge_resolved_conflicts result reply

/-- `_merge_results` in full: build the merged mapping, then, when any
field is flagged as conflicting, substitute the resolver's values.  The
final `response_model(**merged)` pydantic instantiation is external
validation of this returned mapping. -/
def merge_results (schema : Schema) (results : List Record)
    (reply : List (String × Resolution)) : Except MergeError Record := do
  let merged ← mergedRecord schema results
  if has_conflicts merged schema then pure (resolve_conflicts merged schema reply)
  else pure merged

/-- Failures of the whole `handle` call. -/
inductive HandleError : Type where
  | noValidResults : HandleError
  | mergeFailure : MergeError → HandleError
deriving DecidableEq

/-- An abstract page-task failure: `_process_page` raised (any exception,
including a failed `IncompleteOutputException` continuation). -/
inductive PageError : Type where
  | pageError : PageError
deriving DecidableEq

/-- `handle(content, response_model, ...)`: the thread pool and the
per-page LLM calls are external; `outcomes` is the sequence of per-page
task outcomes in `as_completed` arrival order, a failed page contributing
its caught exception.  Failed pages are dropped; if no page succeeded the
call fails with the "No valid results obtained from any page" error;
otherwise the successful results are merged. -/
def handle (schema : Schema) (outcomes : List (Except PageError Record))
    (reply : List (String × Resolution)) : Except HandleError Record :=
  let results := outcomes.filterMap Except.toOption
  if results.isEmpty then .error .noValidResults
  else
    match merge_results schema results reply with
    | .ok r => .ok r
    | .error e => .error (.mergeFailure e)

/-- Ordering test on integer dump values (used only to state whether a
candidate list is sorted ascending, as the spec asserts). -/
def intLeB : PVal → PVal → Bool
  | .int a, .int b => a ≤ b
  | _, _ => false

/-- Is this candidate list sorted ascending (as integer values)? -/
def candidatesSortedAsc : List PVal → Bool
  | [] => true
  | [_] => true
  | a :: b :: rest => intLeB a b && candidatesSortedAsc (b :: rest)

/-!
The request gateway of src/extract_thinker/llm.py: the `LLM` session object,
its budget controller (`set_page_count`), flag setters, and the keyword
arguments each outgoing transport call is built with.  The transports
themselves (litellm / instructor client / router) are external
collaborators; we model the call they receive.
-/

/-- The invocation backend (`LLMEngine`). -/
inductive LLMEngine : Type where
  | DEFAULT : LLMEngine
  | PYDANTIC_AI : LLMEngine
deriving DecidableEq

def LLM.DEFAULT_TEMPERATURE : ℚ := 0
def LLM.THINKING_BUDGET_TOKENS : Nat := 8000
def LLM.DEFAULT_PAGE_TOKENS : Nat := 1500
def LLM.MAX_TOKEN_LIMIT : Nat := 120000
def LLM.MAX_THINKING_BUDGET : Nat := 64000
def LLM.MIN_THINKING_BUDGET : Nat := 1200
def LLM.TIMEOUT_CLASS_DEFAULT : Nat := 3000

/-- The mutable session state of an `LLM` object.  `hasRouter` models
whether `self.router` is set; `TIMEOUT` is the per-session timeout
(`set_timeout` shadows the class attribute on the instance). -/
structure LLMState : Type where
  model : String
  token_limit : Option Nat
  hasRouter : Bool
  is_dynamic : Bool
  backend : LLMEngine
  temperature : ℚ
  is_thinking : Bool
  page_count : Option Nat
  thinking_budget : Nat
  TIMEOUT : Nat
deriving DecidableEq

/-- `LLM.__init__(model, token_limit, backend)` session state. -/
def LLM.init (model : String) (token_limit : Option Nat)
    (backend : LLMEngine) : LLMState :=
  { model := model
    token_limit := token_limit
    hasRouter := false
    is_dynamic := false
    backend := backend
    temperature := LLM.DEFAULT_TEMPERATURE
    is_thinking := false
    page_count := Option.none
    thinking_budget := LLM.THINKING_BUDGET_TOKENS
    TIMEOUT := LLM.TIMEOUT_CLASS_DEFAULT }

/-- `set_temperature(temperature)`. -/
def set_temperature (t : ℚ) (s : LLMState) : LLMState :=
  { s with temperature := t }

/-- `set_thinking(is_thinking)`: sets the flag and unconditionally sets
`self.temperature = 1`. -/
def set_thinking (b : Bool) (s : LLMState) : LLMState :=
  { s with is_thinking := b, temperature := 1 }

/-- `set_dynamic(is_dynamic)`. -/
def set_dynamic (b : Bool) (s : LLMState) : LLMState :=
  { s with is_dynamic := b }

/-- `set_timeout(timeout_ms)`. -/
def set_timeout (t : Nat) (s : LLMState) : LLMState :=
  { s with TIMEOUT := t }

/-- `set_page_count(page_count)`, the budget controller.  A non-positive
page count raises `ValueError`.  The Python thinking-budget expression
`int(page_count * self.DEFAULT_PAGE_TOKENS * self.DEFAULT_THINKING_RATIO)`
is computed in IEEE doubles with the ratio constant `1/3`; for every
machine-representable positive page count the double rounding error (the
rounded `1/3` is `(1 - 2^-54)/3`) stays strictly inside half an ulp of the
exact integer `page_count * 1500 / 3 = 500 * page_count` (with the
power-of-two midpoint tie broken upward to even), so `int(...)` yields
exactly that integer, which is how we embed it. -/
def set_page_count (p : Int) (s : LLMState) : Except String LLMState :=
  if p ≤ 0 then .error "Page count must be a positive integer"
  else
    let pn := p.toNat
    let content_tokens := min (pn * LLM.DEFAULT_PAGE_TOKENS) LLM.MAX_TOKEN_LIMIT
    let raw_thinking := pn * LLM.DEFAULT_PAGE_TOKENS / 3
    let thinking_tokens :=
      min (max raw_thinking LLM.MIN_THINKING_BUDGET) LLM.MAX_THINKING_BUDGET
    .ok { s with
          page_count := Option.some pn
          token_limit := Option.some content_tokens
          thinking_budget := thinking_tokens }

/-- One chat message (`{"role": ..., "content": ...}`). -/
structure Message : Type where
  role : String
  content : String
deriving DecidableEq

/-- The `thinking` parameter dict
`{"type": "enabled", "budget_tokens": ...}`. -/
structure ThinkingParam : Type where
  kind : String
  budget_tokens : Nat
deriving DecidableEq

/-- A reference to a pydantic response-model class as the gateway sees it.
Modelled from the spec: the schema-structure renderer
(`add_classification_structure`, the spec's `describe(schema) -> text`,
implemented in extract_thinker.utils outside the provided sources) is
carried abstractly as the `structureText` the renderer would produce. -/
structure SchemaRef : Type where
  name : String
  structureText : String
deriving DecidableEq

/-- Modelled from the spec: `add_classification_structure(response_model)`
returns the schema's structural description text. -/
def add_classification_structure (σ : SchemaRef) : String :=
  σ.structureText

/-- `DYNAMIC_PROMPT_TEMPLATE.format(prompt=structure)`: the dynamic-mode
system prompt with the schema structure spliced in (Python `{{`/`}}`
unescaped to literal braces). -/
def dynamicPromptFor (structureText : String) : String :=
  "Please provide your thinking process within <think> tags, followed by your JSON output.\n\nJSON structure:\n"
    ++ structureText
    ++ "\n\nOUTPUT example:\n<think>\nYour step-by-step reasoning and analysis goes here...\n</think>\n\n##JSON OUTPUT\n\x7b\n    ...\n\x7d\n"

/-- The keyword arguments of one outgoing transport call.  For each
optional keyword, `Option.none` means the keyword was NOT passed in that
call (so the callee's own default applies), `Option.some v` means it was
passed with value `v`.  `response_model` and `max_tokens` can themselves
carry a passed `None`, hence the nested `Option`. -/
structure TransportCall : Type where
  routed : Bool
  model : String
  messages : List Message
  response_model : Option (Option SchemaRef)
  temperature : Option ℚ
  timeout : Option Nat
  max_retries : Option Nat
  max_tokens : Option (Option Nat)
  thinking : Option ThinkingParam
deriving DecidableEq

/-- The transport call built by `request(messages, response_model)` on the
LITELLM/DEFAULT backend (the PYDANTIC_AI branch returns earlier and never
reaches the transport): schema suppressed in dynamic mode, the dynamic
system prompt appended when dynamic mode is on and a schema was given, the
thinking parameter attached only when thinking is enabled, then either the
router call (timeout, no retry bound) or the direct instructor-client call
(timeout, `max_retries=1`, `max_tokens=token_limit`). -/
def request_transport_call (s : LLMState) (messages : List Message)
    (rm : Option SchemaRef) : TransportCall :=
  let request_model : Option SchemaRef :=
    if s.is_dynamic then Option.none else rm
  let working_messages : List Message :=
    match rm with
    | Option.some σ =>
        if s.is_dynamic then
          messages ++ [⟨"system", dynamicPromptFor (add_classification_structure σ)⟩]
        else messages
    | Option.none => messages
  let thinking_param : Option ThinkingParam :=
    if s.backend = LLMEngine.DEFAULT ∧ s.is_thinking = true then
      Option.some ⟨"enabled", s.thinking_budget⟩
    else Option.none
  if s.hasRouter then
    { routed := true
      model := s.model
      messages := working_messages
      response_model := Option.some request_model
      temperature := Option.some s.temperature
      timeout := Option.some s.TIMEOUT
      max_retries := Option.none
      max_tokens := Option.none
      thinking := thinking_param }
  else
    { routed := false
      model := s.model
      messages := working_messages
      response_model := Option.some request_model
      temperature := Option.some s.temperature
      timeout := Option.some s.TIMEOUT
      max_retries := Option.some 1
      max_tokens := Option.some s.token_limit
      thinking := thinking_param }

/-- What `request` returns once the transport reply is in hand:
with dynamic mode off the transport's (natively validated) response object
is returned unchanged; with dynamic mode on the reply's text content is run
through `extract_thinking_json(content, response_model)`, the external
thinking-JSON extractor that parses and validates the trailing JSON block
against the schema. -/
inductive RequestResult : Type where
  | native : RequestResult
  | extracted : String → Option SchemaRef → RequestResult
deriving DecidableEq

/-- The post-transport processing of `request` (DEFAULT backend), as a
function of the reply's text content. -/
def request_postprocess (s : LLMState) (rm : Option SchemaRef)
    (content : String) : RequestResult :=
  if s.is_dynamic = false then .native
  else .extracted content rm

/-- The transport call built by `raw_completion(messages)`: the router
path passes only model, messages and the thinking parameter; the direct
litellm path additionally passes `max_tokens=token_limit`.  Neither path
passes a timeout, a retry bound, a temperature or a response model.
Unlike `request`, the thinking parameter is attached without a backend
check. -/
def raw_completion_call (s : LLMState) (messages : List Message) :
    TransportCall :=
  let thinking_param : Option ThinkingParam :=
    if s.is_thinking then Option.some ⟨"enabled", s.thinking_budget⟩
    else Option.none
  if s.hasRouter then
    { routed := true
      model := s.model
      messages := messages
      response_model := Option.none
      temperature := Option.none
      timeout := Option.none
      max_retries := Option.none
      max_tokens := Option.none
      thinking := thinking_param }
  else
    { routed := false
      model := s.model
      messages := messages
      response_model := Option.none
      temperature := Option.none
      timeout := Option.none
      max_retries := Option.none
      max_tokens := Option.some s.token_limit
      thinking := thinking_param }

/-!
Helper lemmas about the merge embedding.
-/

/-- The `merged_list` fold with an arbitrary accumulator. -/
theorem listConcat_aux (values acc : List PVal) :
    values.foldl (fun acc v =>
      match v with
      | .list xs => acc ++ xs
      | .none => acc
      | w => acc ++ [w]) acc = acc ++ values.flatMap contribOf := by
  induction values generalizing acc with
  | nil => simp
  | cons v vs ih =>
      rw [List.foldl_cons, ih]
      cases v <;> simp [contribOf]

/-- The merged list is the flattening of the per-page contributions. -/
theorem listConcat_eq_flatMap (values : List PVal) :
    listConcat values = values.flatMap contribOf := by
  unfold listConcat
  rw [listConcat_aux]
  simp

/-- Membership in the distinct-values accumulator. -/
theorem mem_pyDistinctAux (xs : List PVal) :
    ∀ (seen : List PVal) (a : PVal),
      a ∈ pyDistinctAux seen xs ↔ a ∈ xs ∧ a ∉ seen := by
  induction xs with
  | nil => intro seen a; simp [pyDistinctAux]
  | cons v vs ih =>
      intro seen a
      by_cases hv : v ∈ seen
      · rw [pyDistinctAux, if_pos hv, ih]
        constructor
        · rintro ⟨h1, h2⟩; exact ⟨List.mem_cons_of_mem _ h1, h2⟩
        · rintro ⟨h1, h2⟩
          rcases List.mem_cons.mp h1 with h | h
          · subst h; contradiction
          · exact ⟨h, h2⟩
      · rw [pyDistinctAux, if_neg hv]
        constructor
        · intro hmem
          rcases List.mem_cons.mp hmem with h | h
          · subst h; exact ⟨List.mem_cons_self _ _, hv⟩
          · rcases (ih _ a).mp h with ⟨h1, h2⟩
            exact ⟨List.mem_cons_of_mem _ h1,
                   fun hs => h2 (List.mem_append.mpr (Or.inl hs))⟩
        · rintro ⟨h1, h2⟩
          by_cases hav : a = v
          · subst hav; exact List.mem_cons_self _ _
          · rcases List.mem_cons.mp h1 with h | h
            · contradiction
            · refine List.mem_cons_of_mem _ ((ih _ a).mpr ⟨h, fun hs => ?_⟩)
              rcases List.mem_append.mp hs with hs1 | hs1
              · exact h2 hs1
              · exact hav (List.mem_singleton.mp hs1)

/-- The distinct-values accumulator has no duplicates. -/
theorem nodup_pyDistinctAux (xs : List PVal) :
    ∀ seen : List PVal, (pyDistinctAux seen xs).Nodup := by
  induction xs with
  | nil => intro seen; simp [pyDistinctAux]
  | cons v vs ih =>
      intro seen
      by_cases hv : v ∈ seen
      · rw [pyDistinctAux, if_pos hv]; exact ih seen
      · rw [pyDistinctAux, if_neg hv]
        refine List.nodup_cons.mpr ⟨?_, ih _⟩
        intro hmem
        rcases (mem_pyDistinctAux vs _ v).mp hmem with ⟨_, h2⟩
        exact h2 (List.mem_append.mpr (Or.inr (List.mem_singleton.mpr rfl)))

/-- `pyDistinct` keeps exactly the elements of its input. -/
theorem pyDistinct_mem (xs : List PVal) (a : PVal) :
    a ∈ pyDistinct xs ↔ a ∈ xs := by
  rw [pyDistinct, mem_pyDistinctAux]; simp

/-- `pyDistinct` has no duplicates. -/
theorem pyDistinct_nodup (xs : List PVal) : (pyDistinct xs).Nodup :=
  nodup_pyDistinctAux xs []

/-- Permuting the input permutes the distinct values. -/
theorem pyDistinct_perm {xs ys : List PVal} (h : xs.Perm ys) :
    (pyDistinct xs).Perm (pyDistinct ys) := by
  rw [List.perm_ext_iff_of_nodup (pyDistinct_nodup xs) (pyDistinct_nodup ys)]
  intro a
  rw [pyDistinct_mem, pyDistinct_mem]
  exact h.mem_iff

/-- `pyDistinct` is empty exactly on the empty list. -/
theorem pyDistinct_eq_nil (xs : List PVal) : pyDistinct xs = [] ↔ xs = [] := by
  cases xs with
  | nil => simp [pyDistinct, pyDistinctAux]
  | cons v vs => simp [pyDistinct, pyDistinctAux]

/-- A duplicate-free list whose members all equal `v`, with `v` a member,
is the singleton `[v]`. -/
theorem eq_singleton_of_nodup_of_all_eq {d : List PVal} {v : PVal}
    (hn : d.Nodup) (hv : v ∈ d) (hall : ∀ w ∈ d, w = v) : d = [v] := by
  cases d with
  | nil => cases hv
  | cons a t =>
      have ha : a = v := hall a (List.mem_cons_self _ _)
      cases t with
      | nil => rw [ha]
      | cons b t2 =>
          have hb : b = v := hall b (List.mem_cons_of_mem _ (List.mem_cons_self _ _))
          subst ha
          subst hb
          exact absurd (List.mem_cons_self _ _) (List.nodup_cons.mp hn).1

/-- If all elements of `xs` equal `v` and `v` occurs, the distinct values
are exactly `[v]`. -/
theorem pyDistinct_all_eq {xs : List PVal} {v : PVal}
    (hv : v ∈ xs) (hall : ∀ w ∈ xs, w = v) : pyDistinct xs = [v] :=
  eq_singleton_of_nodup_of_all_eq (pyDistinct_nodup xs)
    ((pyDistinct_mem xs v).mpr hv)
    (fun w hw => hall w ((pyDistinct_mem xs w).mp hw))

/-- Two distinct members force at least two distinct values. -/
theorem two_le_length_pyDistinct {xs : List PVal} {a b : PVal}
    (ha : a ∈ xs) (hb : b ∈ xs) (hab : a ≠ b) :
    2 ≤ (pyDistinct xs).length := by
  have ha2 : a ∈ pyDistinct xs := (pyDistinct_mem xs a).mpr ha
  have hb2 : b ∈ pyDistinct xs := (pyDistinct_mem xs b).mpr hb
  cases hd : pyDistinct xs with
  | nil => rw [hd] at ha2; cases ha2
  | cons x t =>
      cases t with
      | nil =>
          rw [hd] at ha2 hb2
          have h1 := List.mem_singleton.mp ha2
          have h2 := List.mem_singleton.mp hb2
          exact absurd (h1.trans h2.symm) hab
      | cons y t2 =>
          simp [List.length_cons]

/-- `List.all` is invariant under permutation. -/
theorem perm_all_eq {xs ys : List PVal} (h : xs.Perm ys) (p : PVal → Bool) :
    xs.all p = ys.all p := by
  rw [Bool.eq_iff_iff, List.all_eq_true, List.all_eq_true]
  exact ⟨fun hh a ha => hh a (h.mem_iff.mpr ha),
         fun hh a ha => hh a (h.mem_iff.mp ha)⟩

/-- Unfolding of the field-merge loop at a cons cell. -/
theorem mergeFields_cons (schema : Schema) (results : List Record)
    (k : String) (ks : List String) :
    mergeFields schema results (k :: ks) =
      (mergeField (isListField schema k) (collectField results k)).bind
        (fun v => (mergeFields schema results ks).bind
          (fun rest => .ok ((k, v) :: rest))) := rfl

/-- If any field's merge raises, the whole field loop raises. -/
theorem mergeFields_error_of_mem (schema : Schema) (results : List Record)
    {f : String} {e : MergeError}
    (herr : mergeField (isListField schema f) (collectField results f) = .error e) :
    ∀ ks : List String, f ∈ ks → ∃ e2, mergeFields schema results ks = .error e2 := by
  intro ks
  induction ks with
  | nil => intro h; cases h
  | cons k ks ih =>
      intro hmem
      rw [mergeFields_cons]
      cases hk : mergeField (isListField schema k) (collectField results k) with
      | error e1 => exact ⟨e1, rfl⟩
      | ok v =>
          rcases List.mem_cons.mp hmem with hf | hf
          · subst hf; rw [hk] at herr; exact Except.noConfusion herr
          · rcases ih hf with ⟨e2, h2⟩
            refine ⟨e2, ?_⟩
            show (mergeFields schema results ks).bind _ = _
            rw [h2]
            rfl

/-- Scalar merge with no non-null contribution yields `None`. -/
theorem mergeField_scalar_none {values : List PVal} (h : nonNullOf values = []) :
    mergeField false values = .ok .none := by
  simp [mergeField, h]

/-- Scalar merge with an unhashable non-null contribution raises. -/
theorem mergeField_scalar_unhashable {values : List PVal}
    (hne : nonNullOf values ≠ [])
    (hbad : (nonNullOf values).all hashableB = false) :
    mergeField false values = .error .typeErrorUnhashable := by
  simp [mergeField, hbad, hne]

/-- Scalar merge with exactly one distinct non-null value yields it. -/
theorem mergeField_scalar_single {values : List PVal} {v : PVal}
    (h : pyDistinct (nonNullOf values) = [v])
    (hh : (nonNullOf values).all hashableB = true) :
    mergeField false values = .ok v := by
  have hne : nonNullOf values ≠ [] := by
    intro h0
    rw [h0] at h
    simp [pyDistinct, pyDistinctAux] at h
  simp [mergeField, hh, hne, h]

/-- Scalar merge with two or more distinct non-null values yields the
conflict marker over the distinct candidates. -/
theorem mergeField_scalar_conflict {values : List PVal}
    (h2 : 2 ≤ (pyDistinct (nonNullOf values)).length)
    (hh : (nonNullOf values).all hashableB = true) :
    mergeField false values = .ok (conflictOf (pyDistinct (nonNullOf values))) := by
  have hne : nonNullOf values ≠ [] := by
    intro h0
    rw [← pyDistinct_eq_nil] at h0
    rw [h0] at h2
    simp at h2
  cases hd : pyDistinct (nonNullOf values) with
  | nil => rw [hd] at h2; simp at h2
  | cons a t =>
      cases t with
      | nil => rw [hd] at h2; simp at h2
      | cons b t2 => simp [mergeField, hh, hne, hd]

/-- Unfolding of `setField` at a cons cell. -/
theorem setField_cons (kv : String × PVal) (rest : Record) (k : String)
    (v : PVal) :
    setField (kv :: rest) k v =
      (if kv.1 = k then (kv.1, v) else kv) :: setField rest k v := rfl

/-- A key's value after `setField` on that key, when the key exists. -/
theorem lookupField_setField_self (r : Record) (k : String) (v : PVal)
    (h : containsKey r k = true) :
    lookupField (setField r k v) k = Option.some v := by
  induction r with
  | nil => simp [containsKey] at h
  | cons kv rest ih =>
      rw [setField_cons]
      by_cases hk : kv.1 = k
      · rw [if_pos hk, lookupField, if_pos hk]
      · rw [if_neg hk, lookupField, if_neg hk]
        have h2 : containsKey rest k = true := by
          rw [containsKey, if_neg hk] at h
          exact h
        exact ih h2

/-- `setField` on another key leaves a lookup unchanged. -/
theorem lookupField_setField_ne (r : Record) (k f : String) (v : PVal)
    (h : f ≠ k) :
    lookupField (setField r k v) f = lookupField r f := by
  induction r with
  | nil => rfl
  | cons kv rest ih =>
      rw [setField_cons]
      by_cases hk : kv.1 = k
      · have hne : ¬kv.1 = f := fun hh => h (hh ▸ hk)
        rw [if_pos hk, lookupField, lookupField, if_neg hne, if_neg hne]
        exact ih
      · rw [if_neg hk, lookupField, lookupField]
        by_cases hf : kv.1 = f
        · rw [if_pos hf, if_pos hf]
        · rw [if_neg hf, if_neg hf]
          exact ih

/-- `setField` never changes which keys a record contains. -/
theorem containsKey_setField (r : Record) (k f : String) (v : PVal) :
    containsKey (setField r k v) f = containsKey r f := by
  induction r with
  | nil => rfl
  | cons kv rest ih =>
      rw [setField_cons]
      by_cases hk : kv.1 = k
      · rw [if_pos hk, containsKey, containsKey]
        by_cases hf : kv.1 = f
        · rw [if_pos hf, if_pos hf]
        · rw [if_neg hf, if_neg hf]
          exact ih
      · rw [if_neg hk, containsKey, containsKey]
        by_cases hf : kv.1 = f
        · rw [if_pos hf, if_pos hf]
        · rw [if_neg hf, if_neg hf]
          exact ih

/-- Unfolding of the resolved-conflict fold at a cons cell. -/
theorem merge_resolved_conflicts_cons (original : Record)
    (kr : String × Resolution) (rest : List (String × Resolution)) :
    merge_resolved_conflicts original (kr :: rest) =
      merge_resolved_conflicts
        (if containsKey original kr.1 then setField original kr.1 kr.2.value
         else original) rest := rfl

/-- Fields not named by the resolver reply keep their value. -/
theorem merge_resolved_lookup_not_mem
    (resolved : List (String × Resolution)) :
    ∀ (original : Record) (f : String),
      (∀ kr ∈ resolved, kr.1 ≠ f) →
      lookupField (merge_resolved_conflicts original resolved) f
        = lookupField original f := by
  induction resolved with
  | nil => intro o f _; rfl
  | cons kr rest ih =>
      intro o f h
      rw [merge_resolved_conflicts_cons,
          ih _ _ (fun x hx => h x (List.mem_cons_of_mem _ hx))]
      by_cases hc : containsKey o kr.1
      · rw [if_pos hc,
            lookupField_setField_ne _ _ _ _
              (fun hh => (h kr (List.mem_cons_self _ _)) hh.symm)]
      · rw [if_neg hc]

/-- A field named (once) by the resolver reply and present in the merged
mapping ends up holding the resolution's `value`. -/
theorem merge_resolved_lookup_mem (resolved : List (String × Resolution)) :
    ∀ (original : Record) (f : String) (res : Resolution),
      (resolved.map Prod.fst).Nodup →
      (f, res) ∈ resolved →
      containsKey original f = true →
      lookupField (merge_resolved_conflicts original resolved) f
        = Option.some res.value := by
  induction resolved with
  | nil => intro _ _ _ _ h _; cases h
  | cons kr rest ih =>
      intro o f res hnd hmem hck
      have hnd1 : kr.1 ∉ rest.map Prod.fst :=
        (List.nodup_cons.mp (by simpa using hnd)).1
      have hnd2 : (rest.map Prod.fst).Nodup :=
        (List.nodup_cons.mp (by simpa using hnd)).2
      rcases List.mem_cons.mp hmem with heq | hmem2
      · cases heq
        rw [merge_resolved_conflicts_cons]
        rw [if_pos hck]
        rw [merge_resolved_lookup_not_mem rest _ f ?notin]
        · exact lookupField_setField_self _ _ _ hck
        case notin =>
          intro x hx hxf
          apply hnd1
          have hm : x.1 ∈ rest.map Prod.fst := List.mem_map_of_mem Prod.fst hx
          rwa [hxf] at hm
      · have hkrf : kr.1 ≠ f := by
          intro hh
          exact hnd1 (hh ▸ (List.mem_map_of_mem Prod.fst hmem2 : (f, res).1 ∈ rest.map Prod.fst))
        rw [merge_resolved_conflicts_cons]
        by_cases hc : containsKey o kr.1
        · rw [if_pos hc]
          exact ih _ f res hnd2 hmem2 (by rw [containsKey_setField]; exact hck)
        · rw [if_neg hc]
          exact ih _ f res hnd2 hmem2 hck

/-- The resolved-conflict substitution reads only each resolution's
`value`; the `confidence` entries never influence the result. -/
theorem merge_resolved_confidence_free (resolved : List (String × Resolution)) :
    ∀ original : Record,
      merge_resolved_conflicts original resolved =
        merge_resolved_conflicts original
          (resolved.map (fun kr => (kr.1, Resolution.mk kr.2.value PVal.none))) := by
  induction resolved with
  | nil => intro _; rfl
  | cons kr rest ih =>
      intro o
      rw [List.map_cons, merge_resolved_conflicts_cons,
          merge_resolved_conflicts_cons]
      exact ih _

/-!
Claim theorems.
-/

/-- C1 (counterexample): the code does NOT sort conflict candidates.  With
page values 10 and 3 for the scalar field `total`, the merge stores the
conflict marker with candidates `[10, 3]` — set-iteration order, which here
is not ascending — not the sorted `[3, 10]` the claim asserts. -/
theorem scalar_conflict_candidates_unsorted :
    mergedRecord [("total", false)]
        [[("total", PVal.int 10)], [("total", PVal.int 3)]]
      = .ok [("total", conflictOf [PVal.int 10, PVal.int 3])]
  ∧ candidatesSortedAsc [PVal.int 10, PVal.int 3] = false
  ∧ [PVal.int 10, PVal.int 3] ≠ [PVal.int 3, PVal.int 10] := by
  refine ⟨rfl, rfl, ?_⟩
  decide

/-- C1 (amended): for every scalar (non-list) schema field, merging the
per-page values assigns: `None` if no page contributed a non-null value;
that value if all non-null values across pages are identical; and, if two
distinct non-null values occur, a Conflict marker holding each distinct
non-null candidate exactly once — in an implementation-defined
set-iteration order, NOT sorted, so no particular order is asserted. -/
theorem scalar_merge_three_cases (schema : Schema) (results : List Record)
    (f : String)
    (hs : isListField schema f = false)
    (hh : (nonNullOf (collectField results f)).all hashableB = true) :
    (nonNullOf (collectField results f) = [] →
        mergeField (isListField schema f) (collectField results f) = .ok .none)
  ∧ (∀ v, v ∈ nonNullOf (collectField results f) →
        (∀ w ∈ nonNullOf (collectField results f), w = v) →
        mergeField (isListField schema f) (collectField results f) = .ok v)
  ∧ (∀ a b, a ∈ nonNullOf (collectField results f) →
        b ∈ nonNullOf (collectField results f) → a ≠ b →
        ∃ d, mergeField (isListField schema f) (collectField results f)
              = .ok (conflictOf d)
          ∧ d.Nodup
          ∧ (∀ x, x ∈ d ↔ x ∈ nonNullOf (collectField results f))
          ∧ 2 ≤ d.length) := by
  rw [hs]
  refine ⟨fun h => mergeField_scalar_none h, ?_, ?_⟩
  · intro v hv hall
    exact mergeField_scalar_single (pyDistinct_all_eq hv hall) hh
  · intro a b ha hb hab
    have hlen := two_le_length_pyDistinct ha hb hab
    exact ⟨pyDistinct (nonNullOf (collectField results f)),
           mergeField_scalar_conflict hlen hh,
           pyDistinct_nodup _,
           fun x => pyDistinct_mem _ x,
           hlen⟩

/-- C1 (witness): concrete instance of the identical-values case. -/
theorem scalar_merge_three_cases_witness :
    mergeField (isListField [("a", false)] "a")
        (collectField [[("a", PVal.int 5)], [("a", PVal.none)]] "a")
      = .ok (PVal.int 5) := by
  have h := scalar_merge_three_cases [("a", false)]
      [[("a", PVal.int 5)], [("a", PVal.none)]] "a" (by decide) (by decide)
  exact h.2.1 (PVal.int 5) (by decide) (by decide)

/-- C2 (counterexample): merging is NOT order-independent for the full
MergedRecord.  Two pages contributing `[1]` and `[2]` to a list field merge
to `[1, 2]` in one order and `[2, 1]` in the other, so the two permuted
page lists yield different MergedRecords. -/
theorem merge_order_dependent :
    mergedRecord [("items", true)]
        [[("items", PVal.list [PVal.int 1])], [("items", PVal.list [PVal.int 2])]]
      = .ok [("items", PVal.list [PVal.int 1, PVal.int 2])]
  ∧ mergedRecord [("items", true)]
        [[("items", PVal.list [PVal.int 2])], [("items", PVal.list [PVal.int 1])]]
      = .ok [("items", PVal.list [PVal.int 2, PVal.int 1])]
  ∧ ([[("items", PVal.list [PVal.int 2])], [("items", PVal.list [PVal.int 1])]] : List Record).Perm
      [[("items", PVal.list [PVal.int 1])], [("items", PVal.list [PVal.int 2])]]
  ∧ mergedRecord [("items", true)]
        [[("items", PVal.list [PVal.int 1])], [("items", PVal.list [PVal.int 2])]]
      ≠ mergedRecord [("items", true)]
        [[("items", PVal.list [PVal.int 2])], [("items", PVal.list [PVal.int 1])]] := by
  exact ⟨rfl, rfl, by decide, by decide⟩

/-- C2 (amended): merging is order-independent only up to reordering: for
permuted page values, a list field merges to a permutation of the original
merged list, the set of distinct non-null scalar candidates is invariant
(as a permutation), a scalar field with at most one distinct non-null value
merges to the identical result, and a conflicting scalar field yields
conflict markers whose candidate lists are permutations of each other. -/
theorem merge_perm_behavior (values values2 : List PVal)
    (hp : values.Perm values2) :
    (∃ xs xs2, mergeField true values = .ok (.list xs)
        ∧ mergeField true values2 = .ok (.list xs2)
        ∧ xs.Perm xs2)
  ∧ (pyDistinct (nonNullOf values)).Perm (pyDistinct (nonNullOf values2))
  ∧ ((pyDistinct (nonNullOf values)).length ≤ 1 →
        mergeField false values = mergeField false values2)
  ∧ (2 ≤ (pyDistinct (nonNullOf values)).length →
        (nonNullOf values).all hashableB = true →
        mergeField false values = .ok (conflictOf (pyDistinct (nonNullOf values)))
          ∧ mergeField false values2
              = .ok (conflictOf (pyDistinct (nonNullOf values2)))) := by
  have hnn : (nonNullOf values).Perm (nonNullOf values2) := hp.filter _
  have hpd : (pyDistinct (nonNullOf values)).Perm (pyDistinct (nonNullOf values2)) :=
    pyDistinct_perm hnn
  have hall : (nonNullOf values).all hashableB = (nonNullOf values2).all hashableB :=
    perm_all_eq hnn hashableB
  refine ⟨?_, hpd, ?_, ?_⟩
  · refine ⟨listConcat values, listConcat values2, by simp [mergeField], by simp [mergeField], ?_⟩
    rw [listConcat_eq_flatMap, listConcat_eq_flatMap]
    exact hp.flatMap_right contribOf
  · intro hlen
    cases hd : pyDistinct (nonNullOf values) with
    | nil =>
        have h0 : nonNullOf values = [] := (pyDistinct_eq_nil _).mp hd
        have h2 : nonNullOf values2 = [] := ((h0 ▸ hnn).symm).eq_nil
        rw [mergeField_scalar_none h0, mergeField_scalar_none h2]
    | cons a t =>
        cases t with
        | nil =>
            have hd2 : pyDistinct (nonNullOf values2) = [a] := by
              have := hd ▸ hpd
              exact (List.perm_singleton.mp this.symm).symm ▸ rfl
            have hne : nonNullOf values ≠ [] := by
              intro h0
              rw [(pyDistinct_eq_nil _).mpr h0] at hd
              exact List.noConfusion hd
            have hne2 : nonNullOf values2 ≠ [] := by
              intro h0
              rw [(pyDistinct_eq_nil _).mpr h0] at hd2
              exact List.noConfusion hd2
            cases hhash : (nonNullOf values).all hashableB with
            | true =>
                rw [mergeField_scalar_single hd hhash,
                    mergeField_scalar_single hd2 (hall ▸ hhash)]
            | false =>
                rw [mergeField_scalar_unhashable hne hhash,
                    mergeField_scalar_unhashable hne2 (hall ▸ hhash)]
        | cons b t2 =>
            rw [hd] at hlen
            simp at hlen
  · intro hlen hhash
    refine ⟨mergeField_scalar_conflict hlen hhash, ?_⟩
    exact mergeField_scalar_conflict (hpd.length_eq ▸ hlen) (hall ▸ hhash)

/-- C2 (witness): concrete permuted pages exercising the conflict case. -/
theorem merge_perm_behavior_witness :
    mergeField false [PVal.int 1, PVal.none, PVal.int 2]
      = .ok (conflictOf [PVal.int 1, PVal.int 2])
  ∧ mergeField false [PVal.int 2, PVal.int 1, PVal.none]
      = .ok (conflictOf [PVal.int 2, PVal.int 1]) := by
  have h := merge_perm_behavior [PVal.int 1, PVal.none, PVal.int 2]
      [PVal.int 2, PVal.int 1, PVal.none] (by decide)
  have h4 := h.2.2.2 (by decide) (by decide)
  exact ⟨h4.1, h4.2⟩

/-- C3: every field named in the resolver reply that exists in the merged
mapping is overwritten with the resolved `value`; the `confidence` score is
never otherwise consumed; and in the concrete 10-vs-12 scenario the
pre-resolution merge holds a Conflict marker with candidates `[10, 12]`
while the post-resolution mapping holds `total = 12`. -/
theorem conflict_resolution_overwrites
    (original : Record) (reply : List (String × Resolution))
    (f : String) (res : Resolution)
    (hnd : (reply.map Prod.fst).Nodup)
    (hmem : (f, res) ∈ reply)
    (hck : containsKey original f = true) :
    lookupField (merge_resolved_conflicts original reply) f
      = Option.some res.value
  ∧ merge_resolved_conflicts original reply
      = merge_resolved_conflicts original
          (reply.map (fun kr => (kr.1, Resolution.mk kr.2.value PVal.none)))
  ∧ mergedRecord [("total", false)]
        [[("total", PVal.int 10)], [("total", PVal.int 12)]]
      = .ok [("total", conflictOf [PVal.int 10, PVal.int 12])]
  ∧ merge_results [("total", false)]
        [[("total", PVal.int 10)], [("total", PVal.int 12)]]
        [("total", Resolution.mk (PVal.int 12) (PVal.int 8))]
      = .ok [("total", PVal.int 12)] :=
  ⟨merge_resolved_lookup_mem reply original f res hnd hmem hck,
   merge_resolved_confidence_free reply original,
   rfl, rfl⟩

/-- C3 (witness): the overwrite property at the concrete conflict. -/
theorem conflict_resolution_overwrites_witness :
    lookupField
        (merge_resolved_conflicts
          [("total", conflictOf [PVal.int 10, PVal.int 12])]
          [("total", Resolution.mk (PVal.int 12) (PVal.int 8))]) "total"
      = Option.some (PVal.int 12) := by
  have h := conflict_resolution_overwrites
      [("total", conflictOf [PVal.int 10, PVal.int 12])]
      [("total", Resolution.mk (PVal.int 12) (PVal.int 8))]
      "total" (Resolution.mk (PVal.int 12) (PVal.int 8))
      (by decide) (by decide) (by decide)
  exact h.1

/-- C4: pages whose task raised are dropped and the surviving results are
merged; if every page failed, `handle` fails with the
"no valid results" error. -/
theorem handle_drops_failed_pages (schema : Schema)
    (outcomes : List (Except PageError Record))
    (reply : List (String × Resolution)) :
    (outcomes.filterMap Except.toOption = [] →
        handle schema outcomes reply = .error .noValidResults)
  ∧ (outcomes.filterMap Except.toOption ≠ [] →
        handle schema outcomes reply =
          Except.mapError HandleError.mergeFailure
            (merge_results schema (outcomes.filterMap Except.toOption) reply)) := by
  constructor
  · intro h
    simp [handle, h]
  · intro h
    have hne : (outcomes.filterMap Except.toOption).isEmpty = false := by
      cases hc : outcomes.filterMap Except.toOption with
      | nil => exact absurd hc h
      | cons a t => rfl
    simp only [handle, hne, Bool.false_eq_true, if_false]
    cases hm : merge_results schema (outcomes.filterMap Except.toOption) reply with
    | ok r => rfl
    | error e => rfl

/-- C4 (witness): three pages with the middle one failing merge over
exactly the two successful pages; three failing pages give the
no-valid-results error. -/
theorem handle_drops_failed_pages_witness :
    handle [("total", false)]
        [Except.ok [("total", PVal.int 7)], Except.error .pageError,
         Except.ok [("total", PVal.int 7)]] []
      = Except.mapError HandleError.mergeFailure
          (merge_results [("total", false)]
            [[("total", PVal.int 7)], [("total", PVal.int 7)]] [])
  ∧ handle [("total", false)]
        [Except.error .pageError, Except.error .pageError,
         Except.error .pageError] []
      = .error .noValidResults := by
  have h1 := handle_drops_failed_pages [("total", false)]
      [Except.ok [("total", PVal.int 7)], Except.error .pageError,
       Except.ok [("total", PVal.int 7)]] ([] : List (String × Resolution))
  have h2 := handle_drops_failed_pages [("total", false)]
      [Except.error .pageError, Except.error .pageError,
       Except.error .pageError] ([] : List (String × Resolution))
  exact ⟨h1.2 (by decide), h2.1 rfl⟩

/-- C5: for every positive page count p the budget controller stores
`content_tokens = min(p * 1500, 120000)` and
`thinking_tokens = clamp(p * 1500 * 1/3, 1200, 64000) = clamp(500p, 1200,
64000)`, leaving the rest of the session unchanged. -/
theorem budget_controller_formula (p : Nat) (s : LLMState) (hp : 0 < p) :
    set_page_count (p : Int) s = .ok { s with
        page_count := Option.some p
        token_limit := Option.some (min (p * 1500) 120000)
        thinking_budget := min (max (p * 500) 1200) 64000 } := by
  have hneg : ¬((p : Int) ≤ 0) := by omega
  rw [set_page_count, if_neg hneg]
  have ht : (p : Int).toNat = p := by omega
  rw [ht]
  have h3 : p * LLM.DEFAULT_PAGE_TOKENS / 3 = p * 500 := by
    unfold LLM.DEFAULT_PAGE_TOKENS
    omega
  dsimp only
  rw [h3]
  rfl

/-- C5 (witness): one page gives 1500 content tokens and the 1200 floor;
one hundred pages give the 120000 ceiling and 50000 thinking tokens. -/
theorem budget_controller_formula_witness :
    set_page_count (1 : Int) (LLM.init "claude-3" Option.none .DEFAULT)
      = .ok { LLM.init "claude-3" Option.none .DEFAULT with
              page_count := Option.some 1
              token_limit := Option.some 1500
              thinking_budget := 1200 }
  ∧ set_page_count (100 : Int) (LLM.init "claude-3" Option.none .DEFAULT)
      = .ok { LLM.init "claude-3" Option.none .DEFAULT with
              page_count := Option.some 100
              token_limit := Option.some 120000
              thinking_budget := 50000 } := by
  constructor
  · exact budget_controller_formula 1 (LLM.init "claude-3" Option.none .DEFAULT) (by decide)
  · exact budget_controller_formula 100 (LLM.init "claude-3" Option.none .DEFAULT) (by decide)

/-- C6: with dynamic mode on and a schema given (DEFAULT backend), the
transport call carries `response_model=None`, the message list gains
exactly one extra system message holding the think-template around the
schema's structural description, and the call's result is the thinking-JSON
extraction of the reply text against the schema. -/
theorem dynamic_mode_request (s : LLMState) (messages : List Message)
    (σ : SchemaRef) (content : String)
    (_hb : s.backend = LLMEngine.DEFAULT)
    (hd : s.is_dynamic = true) :
    (request_transport_call s messages (Option.some σ)).response_model
      = Option.some Option.none
  ∧ (request_transport_call s messages (Option.some σ)).messages
      = messages
          ++ [⟨"system", dynamicPromptFor (add_classification_structure σ)⟩]
  ∧ request_postprocess s (Option.some σ) content
      = .extracted content (Option.some σ) := by
  refine ⟨?_, ?_, ?_⟩
  · cases hr : s.hasRouter <;> simp [request_transport_call, hd, hr]
  · cases hr : s.hasRouter <;> simp [request_transport_call, hd, hr]
  · simp [request_postprocess, hd]

/-- C6 (witness): the dynamic-mode call shape at a concrete session. -/
theorem dynamic_mode_request_witness :
    (request_transport_call
        (set_dynamic true (LLM.init "gpt-4" Option.none .DEFAULT)) []
        (Option.some ⟨"Invoice", "field total of type int"⟩)).response_model
      = Option.some Option.none
  ∧ (request_transport_call
        (set_dynamic true (LLM.init "gpt-4" Option.none .DEFAULT)) []
        (Option.some ⟨"Invoice", "field total of type int"⟩)).messages
      = [⟨"system", dynamicPromptFor "field total of type int"⟩] := by
  have h := dynamic_mode_request
      (set_dynamic true (LLM.init "gpt-4" Option.none .DEFAULT)) []
      ⟨"Invoice", "field total of type int"⟩ "reply" rfl rfl
  exact ⟨h.1, h.2.1⟩

/-- C7: a list-typed field merges to the flattening of all per-page
contributions — null contributions add nothing, list contributions are
spliced in whole — so the merged length is the sum of the contributed
lengths and every contributed chunk survives as a sublist (no silent
drops). -/
theorem list_merge_flatten (values : List PVal)
    (_h : ∀ v ∈ values, v = PVal.none ∨ ∃ xs, v = PVal.list xs) :
    mergeField true values = .ok (.list (values.flatMap contribOf))
  ∧ (values.flatMap contribOf).length
      = (values.map (fun v => (contribOf v).length)).sum
  ∧ ∀ v ∈ values, (contribOf v).Sublist (values.flatMap contribOf) := by
  refine ⟨?_, ?_, ?_⟩
  · simp [mergeField, listConcat_eq_flatMap]
  · clear _h
    induction values with
    | nil => rfl
    | cons v vs ih => simp [List.flatMap_cons, Function.comp, ih]
  · intro v hv
    have hmem : contribOf v ∈ values.map contribOf :=
      List.mem_map_of_mem _ hv
    have hsub : (contribOf v).Sublist (values.map contribOf).flatten :=
      List.sublist_flatten_of_mem hmem
    rw [List.flatMap_def]
    exact hsub

/-- C7 (witness): two list pages and one null page flatten losslessly. -/
theorem list_merge_flatten_witness :
    mergeField true [PVal.list [PVal.int 1], PVal.none,
        PVal.list [PVal.int 2, PVal.int 3]]
      = .ok (.list [PVal.int 1, PVal.int 2, PVal.int 3]) := by
  have h := list_merge_flatten
      [PVal.list [PVal.int 1], PVal.none, PVal.list [PVal.int 2, PVal.int 3]]
      (by simp)
  exact h.1

/-- C8 (counterexample): not every gateway transport call carries the
configurable timeout and a one-retry bound: `raw_completion` passes no
timeout on either path and no retry bound, and the routed `request` call
passes no retry bound. -/
theorem transport_kwargs_counterexample :
    (raw_completion_call (LLM.init "m" Option.none .DEFAULT) []).timeout
      = Option.none
  ∧ (raw_completion_call
        { LLM.init "m" Option.none .DEFAULT with hasRouter := true } []).timeout
      = Option.none
  ∧ (raw_completion_call (LLM.init "m" Option.none .DEFAULT) []).max_retries
      = Option.none
  ∧ (request_transport_call
        { LLM.init "m" Option.none .DEFAULT with hasRouter := true } []
        Option.none).max_retries
      = Option.none :=
  ⟨rfl, rfl, rfl, rfl⟩

/-- C8 (amended): both `request` transport paths carry the configurable
timeout, but only the direct path sets `max_retries=1`; the routed path
passes no retry bound, and `raw_completion` passes neither the timeout nor
a retry bound on either path. -/
theorem transport_kwargs (s : LLMState) (messages : List Message)
    (rm : Option SchemaRef) :
    (request_transport_call s messages rm).timeout = Option.some s.TIMEOUT
  ∧ (s.hasRouter = false →
        (request_transport_call s messages rm).max_retries = Option.some 1)
  ∧ (s.hasRouter = true →
        (request_transport_call s messages rm).max_retries = Option.none)
  ∧ (raw_completion_call s messages).timeout = Option.none
  ∧ (raw_completion_call s messages).max_retries = Option.none := by
  refine ⟨?_, ?_, ?_, ?_, ?_⟩
  · cases hr : s.hasRouter <;> simp [request_transport_call, hr]
  · intro h; simp [request_transport_call, h]
  · intro h; simp [request_transport_call, h]
  · cases hr : s.hasRouter <;> simp [raw_completion_call, hr]
  · cases hr : s.hasRouter <;> simp [raw_completion_call, hr]

/-- C8 (witness): the direct `request` path at a concrete session carries
the 3000 ms default timeout and the one-retry bound. -/
theorem transport_kwargs_witness :
    (request_transport_call (LLM.init "m" Option.none .DEFAULT) []
        Option.none).timeout = Option.some 3000
  ∧ (request_transport_call (LLM.init "m" Option.none .DEFAULT) []
        Option.none).max_retries = Option.some 1 := by
  have h := transport_kwargs (LLM.init "m" Option.none .DEFAULT) [] Option.none
  exact ⟨h.1, h.2.1 rfl⟩

/-- C9: `set_thinking b` sets the `is_thinking` flag to `b` and
unconditionally overwrites the session temperature with 1 — also when
`b = false` — while every other session field is untouched. -/
theorem set_thinking_frame (s : LLMState) (b : Bool) :
    (set_thinking b s).is_thinking = b
  ∧ (set_thinking b s).temperature = 1
  ∧ (set_thinking false s).temperature = 1
  ∧ (set_thinking b s).model = s.model
  ∧ (set_thinking b s).token_limit = s.token_limit
  ∧ (set_thinking b s).hasRouter = s.hasRouter
  ∧ (set_thinking b s).is_dynamic = s.is_dynamic
  ∧ (set_thinking b s).backend = s.backend
  ∧ (set_thinking b s).page_count = s.page_count
  ∧ (set_thinking b s).thinking_budget = s.thinking_budget
  ∧ (set_thinking b s).TIMEOUT = s.TIMEOUT :=
  ⟨rfl, rfl, rfl, rfl, rfl, rfl, rfl, rfl, rfl, rfl, rfl⟩

/-- C10: the scalar merge is total only for hashable values — as soon as
some page contributes a non-null unhashable value (a dumped nested object
or a stray list) to a non-list schema field, forming the set of distinct
values raises and no MergedRecord is produced. -/
theorem merge_unhashable_raises (schema : Schema) (results : List Record)
    (f : String)
    (hmem : f ∈ collectKeys results)
    (hs : isListField schema f = false)
    (hbad : ∃ v ∈ collectField results f, v ≠ PVal.none ∧ hashableB v = false) :
    ∃ e, mergedRecord schema results = .error e := by
  obtain ⟨v, hv, hvn, hvh⟩ := hbad
  have hvnn : v ∈ nonNullOf (collectField results f) :=
    List.mem_filter.mpr ⟨hv, by simp [hvn]⟩
  have hne : nonNullOf (collectField results f) ≠ [] := by
    intro h0
    rw [h0] at hvnn
    cases hvnn
  have hall : (nonNullOf (collectField results f)).all hashableB = false := by
    cases hallc : (nonNullOf (collectField results f)).all hashableB with
    | false => rfl
    | true =>
        have := List.all_eq_true.mp hallc v hvnn
        rw [hvh] at this
        cases this
  have herr : mergeField (isListField schema f) (collectField results f)
      = .error .typeErrorUnhashable := by
    rw [hs]
    exact mergeField_scalar_unhashable hne hall
  exact mergeFields_error_of_mem schema results herr (collectKeys results) hmem

/-- C10 (witness): one page dumping a nested object into the scalar field
`address` makes the whole merge raise. -/
theorem merge_unhashable_raises_witness :
    ∃ e, mergedRecord [("address", false)]
        [[("address", PVal.dict [("street", PVal.str "Main")])]] = .error e :=
  merge_unhashable_raises [("address", false)]
    [[("address", PVal.dict [("street", PVal.str "Main")])]] "address"
    (by decide) (by decide)
    ⟨PVal.dict [("street", PVal.str "Main")], by decide, by decide, by decide⟩
